import Mathlib

/-!
Formal model of `src/src/demo/chain.rs` (chain-shooting mechanic):
the chain-building loop of `handle_chain_input` (lines 81-178), the
oldest-chain removal on secondary action (lines 181-194), and the expiry
sweep `cleanup_expired_chains` (lines 211-242).

Scalars are modelled as exact rationals.  The floating-point front end of
`handle_chain_input` (vector length, `normalize`, the `as usize` cast) is
modelled separately with `F`-valued arithmetic, where `none` stands for a
value that is not an exact rational — NaN or an infinity, or a result the
model does not track further; the theorems below only evaluate it at
inputs where every intermediate value is exact.
-/

namespace Hooked

/-- 2D vector addition (glam `Vec2 +`). -/
def vadd (a b : ℚ × ℚ) : ℚ × ℚ := (a.1 + b.1, a.2 + b.2)

/-- Scalar multiplication of a 2D vector (glam `Vec2 * f32`). -/
def vsmul (c : ℚ) (v : ℚ × ℚ) : ℚ × ℚ := (c * v.1, c * v.2)

/-- Rust's `as usize` cast of a nonnegative rational: the floor, written
out on numerator and denominator so that it evaluates by kernel
reduction; a negative argument saturates to `0` (as the cast does).
Agrees with `Nat.floor` (`ratFloorNat_eq`). -/
def ratFloorNat (q : ℚ) : ℕ := q.num.toNat / q.den

/-- `let num_links = (chain_length / actual_link_spacing).max(1.0) as usize;`
(chain.rs line 92).  The `as usize` cast truncates toward zero and the
argument is at least `1`, so it is the floor. -/
def numLinks (chainLength spacing : ℚ) : ℕ := ratFloorNat (max (chainLength / spacing) 1)

/-- Spawn translation of link `i` (chain.rs lines 99-103):
`player + chain_direction * (i / num_links.max(1)) * (actual_link_spacing * (num_links - 1))`. -/
def linkPos (p dir : ℚ × ℚ) (spacing : ℚ) (n i : ℕ) : ℚ × ℚ :=
  vadd p (vsmul (((i : ℚ) / ((max n 1 : ℕ) : ℚ)) * (spacing * ((n - 1 : ℕ) : ℚ))) dir)

/-- The data spawned for one chain link that the verified claims mention:
entity id, `ChainLink { link_index }`, the spawn `Transform` translation,
and the components inserted only on the first link (chain.rs lines
137-140): the `ChainRoot` marker and the `ChainLifetime` whose once-timer
duration (5 seconds) is recorded in `lifetime`.  Physical tuning
components (collider, mass, damping, sprite, …) are engine-side
configuration not used by any claim. -/
structure LinkRec where
  id : ℕ
  linkIndex : ℕ
  pos : ℚ × ℚ
  isRoot : Bool
  lifetime : Option ℚ
  deriving DecidableEq

/-- A spawned `RevoluteJoint::new(prev_entity, current_entity)`
(chain.rs lines 146-159): its entity id and its two link references in
creation order. -/
structure JointRec where
  id : ℕ
  entity1 : ℕ
  entity2 : ℕ
  deriving DecidableEq

/-- State of the `for i in 0..num_links` loop: the `Commands` entity-id
counter, `previous_entity`, and the accumulated `links` / `joints` vectors
together with the full spawned records. -/
structure BuildOut where
  nextId : ℕ
  prev : Option ℕ
  links : List ℕ
  linkRecs : List LinkRec
  joints : List ℕ
  jointRecs : List JointRec
  deriving DecidableEq

/-- Loop state before the first iteration: fresh-id counter `c`,
`previous_entity = None`, empty vectors. -/
def initBuild (c : ℕ) : BuildOut := ⟨c, none, [], [], [], []⟩

/-- Body of the loop (chain.rs lines 98-162) at index `i`: spawn the link
entity (taking the next fresh id), push it to `links`, mark the first link
as root with a 5-second lifetime, then — when a previous link exists —
spawn the joint entity referencing previous and current link. -/
def buildStep (p dir : ℚ × ℚ) (spacing : ℚ) (n : ℕ) (st : BuildOut) (i : ℕ) : BuildOut :=
  let pos := linkPos p dir spacing n i
  let current := st.nextId
  let withLink : BuildOut :=
    { st with
      nextId := st.nextId + 1
      links := st.links ++ [current]
      linkRecs := st.linkRecs ++ [⟨current, i, pos, i == 0, if i = 0 then some 5 else none⟩] }
  match st.prev with
  | none => { withLink with prev := some current }
  | some prevE =>
    { withLink with
      nextId := withLink.nextId + 1
      joints := withLink.joints ++ [withLink.nextId]
      jointRecs := withLink.jointRecs ++ [⟨withLink.nextId, prevE, current⟩]
      prev := some current }

/-- The chain-building part of `handle_chain_input` (chain.rs lines
88-162), parameterised by the entity counter `c` and by the results `dir`
and `len` of the floating-point direction/length computation (lines
84-87), and by the effective spacing (`actual_link_spacing`, line 91). -/
def buildChain (c : ℕ) (p dir : ℚ × ℚ) (len spacing : ℚ) : BuildOut :=
  (List.range (numLinks len spacing)).foldl
    (buildStep p dir spacing (numLinks len spacing)) (initBuild c)

/-- Entity id of link `i` when the counter starts at `c`: links and joints
are spawned alternately from `c`, so link ids are `c, c+1, c+3, c+5, …`
(natural subtraction makes the formula cover `i = 0`). -/
def linkId (c i : ℕ) : ℕ := c + (2 * i - 1)

/-- Entity id of joint `k` (joining links `k` and `k+1`): `c+2, c+4, …`. -/
def jointId (c k : ℕ) : ℕ := c + 2 * k + 2

/-- The record spawned for link `i`, in closed form. -/
def mkLinkRec (c : ℕ) (p dir : ℚ × ℚ) (spacing : ℚ) (n i : ℕ) : LinkRec :=
  ⟨linkId c i, i, linkPos p dir spacing n i, i == 0, if i = 0 then some 5 else none⟩

/-- The record spawned for joint `k`, in closed form. -/
def mkJointRec (c k : ℕ) : JointRec := ⟨jointId c k, linkId c k, linkId c (k + 1)⟩

/-! ### Registry and lifecycle state

`ChainState` is the resource of chain.rs lines 58-69; `Chain` stores the
entity handles of one chain's links and joints. -/

/-- `pub struct Chain { links: Vec<Entity>, joints: Vec<Entity> }`. -/
structure Chain where
  links : List ℕ
  joints : List ℕ
  deriving DecidableEq

/-- `pub struct ChainState { chains: Vec<Chain> }`: the ordered registry,
oldest chain first (new chains are pushed at the back, line 175). -/
structure ChainState where
  chains : List Chain
  deriving DecidableEq

/-- Right-mouse branch of `handle_chain_input` (chain.rs lines 181-194):
take the first (oldest) chain if any, despawn all of its link and joint
entities, and remove it from the registry.  Returns the new registry and
the despawned entity ids; on an empty registry nothing happens. -/
def removeOldestChain (st : ChainState) : ChainState × List ℕ :=
  match st.chains with
  | [] => (st, [])
  | ch :: rest => (⟨rest⟩, ch.links ++ ch.joints)

/-! ### Expiry sweep

`cleanup_expired_chains` (chain.rs lines 211-242).  A `ChainLifetime` is a
once-timer of duration 5 seconds attached to the root link entity; bevy's
`Timer::tick` adds the frame delta to the elapsed time, clamping it at the
duration, and `finished()` holds exactly when the unclamped elapsed time
has reached the duration.  Durations are exact (integer nanoseconds in
bevy), so rationals model them faithfully. -/

/-- Elapsed time of the 5-second once-timer after `tick(d)`. -/
def tickElapsed (t d : ℚ) : ℚ := min (t + d) 5

/-- The world state the sweep operates on: the registry plus the live
`(root entity, elapsed time)` rows of the `ChainLifetime` query. -/
structure World where
  chains : List Chain
  lifetimes : List (ℕ × ℚ)
  deriving DecidableEq

/-- One run of `cleanup_expired_chains` over the query rows (chain.rs
lines 217-241), threading the registry: tick each row's timer; when it is
finished, look up the chain whose first link is that entity, despawn all
its links and joints and remove it from the registry (the row's root
entity is despawned with it, so the row disappears); when the lookup
misses, nothing is removed.  Returns the registry, the surviving rows and
every despawned entity id. -/
def sweep (d : ℚ) : List Chain → List (ℕ × ℚ) → List Chain × List (ℕ × ℚ) × List ℕ
  | chains, [] => (chains, [], [])
  | chains, (e, t) :: rest =>
    if 5 ≤ t + d then
      match chains.findIdx? (fun ch => ch.links.head? == some e) with
      | some idx =>
        let removedHandles :=
          match chains.get? idx with
          | some ch => ch.links ++ ch.joints
          | none => []
        let out := sweep d (chains.eraseIdx idx) rest
        (out.1, out.2.1, removedHandles ++ out.2.2)
      | none =>
        let out := sweep d chains rest
        (out.1, (e, tickElapsed t d) :: out.2.1, out.2.2)
    else
      let out := sweep d chains rest
      (out.1, (e, tickElapsed t d) :: out.2.1, out.2.2)

/-- One frame of the expiry system with frame delta `d`. -/
def cleanupFrame (d : ℚ) (w : World) : World × List ℕ :=
  let out := sweep d w.chains w.lifetimes
  (⟨out.1, out.2.1⟩, out.2.2)

/-- Run the expiry system over a sequence of frame deltas. -/
def runFrames : List ℚ → World → World
  | [], w => w
  | d :: ds, w => runFrames ds (cleanupFrame d w).1

/-! ### The floating-point front end

`handle_chain_input` computes the chain direction and length with `f32`
(glam `Vec2`) arithmetic before entering the loop (chain.rs lines 84-92).
`F` models an `f32` value: `some q` is the exact value `q`; `none` is a
value the model does not represent exactly — NaN or an infinity, or an
inexact (rounded) result.  The theorems below only evaluate this model at
inputs where every finite intermediate value is exact, so `none` marks
precisely the non-finite values there. -/

/-- An `f32` value as tracked by the model. -/
abbrev F := Option ℚ

/-- `f32` addition: NaN/∞ propagate. -/
def fAdd : F → F → F
  | some a, some b => some (a + b)
  | _, _ => none

/-- `f32` subtraction. -/
def fSub : F → F → F
  | some a, some b => some (a - b)
  | _, _ => none

/-- `f32` multiplication (note `NaN * 0 = NaN`, so `none` absorbs). -/
def fMul : F → F → F
  | some a, some b => some (a * b)
  | _, _ => none

/-- `f32` division: dividing by `0` gives `±∞` or NaN (`0/0`), hence
`none`. -/
def fDiv : F → F → F
  | some a, some b => if b = 0 then none else some (a / b)
  | _, _ => none

/-- Rust `f32::max`: when one operand is NaN the other is returned. -/
def fMax : F → F → F
  | some a, some b => some (max a b)
  | some a, none => some a
  | none, some b => some b
  | none, none => none

/-- `f32::sqrt`, modelled exactly on nonnegative rationals whose square
root is rational (a negative argument is NaN in IEEE; an irrational
result is not tracked); the verified runs only reach perfect squares. -/
def fSqrt : F → F
  | none => none
  | some q =>
    if 0 ≤ q ∧ (Nat.sqrt q.num.toNat) * (Nat.sqrt q.num.toNat) = q.num.toNat
        ∧ (Nat.sqrt q.den) * (Nat.sqrt q.den) = q.den
    then some ((Nat.sqrt q.num.toNat : ℚ) / (Nat.sqrt q.den : ℚ))
    else none

/-- Rust `as usize` on an `f32`: truncation toward zero, saturating (so
`0` on every nonpositive value), with NaN mapped to `0`.  In the modelled
program the argument is a finite value `≥ 1` (the result of
`.max(1.0)`). -/
def fToUsize : F → ℕ
  | none => 0
  | some q => ratFloorNat q

/-- `f32` 2D vectors. -/
abbrev FV := F × F

/-- glam `Vec2` subtraction, componentwise. -/
def fvSub (a b : FV) : FV := (fSub a.1 b.1, fSub a.2 b.2)

/-- glam `Vec2` addition, componentwise. -/
def fvAdd (a b : FV) : FV := (fAdd a.1 b.1, fAdd a.2 b.2)

/-- glam `Vec2 * f32`, componentwise. -/
def fvScale (c : F) (v : FV) : FV := (fMul c v.1, fMul c v.2)

/-- glam `Vec2::length_squared`. -/
def fvLengthSq (v : FV) : F := fAdd (fMul v.1 v.1) (fMul v.2 v.2)

/-- glam `Vec2::length`. -/
def fvLength (v : FV) : F := fSqrt (fvLengthSq v)

/-- glam `Vec2::normalize`: the vector divided by its length.  For the
zero vector this divides `0` by `0` — NaN components. -/
def fvNormalize (v : FV) : FV := (fDiv v.1 (fvLength v), fDiv v.2 (fvLength v))

/-- Link record of the `f32` pipeline (spawn translation is an `f32`
vector). -/
structure LinkRecF where
  id : ℕ
  linkIndex : ℕ
  pos : FV
  isRoot : Bool
  lifetime : Option ℚ
  deriving DecidableEq

/-- Loop state of the building loop in the `f32` pipeline. -/
structure BuildOutF where
  nextId : ℕ
  prev : Option ℕ
  links : List ℕ
  linkRecs : List LinkRecF
  joints : List ℕ
  jointRecs : List JointRec
  deriving DecidableEq

/-- Initial loop state of the `f32` pipeline. -/
def initBuildF (c : ℕ) : BuildOutF := ⟨c, none, [], [], [], []⟩

/-- Body of the loop (chain.rs lines 98-162) in the `f32` pipeline; the
`usize` to `f32` casts of `i`, `num_links.max(1)` and `num_links - 1` are
exact. -/
def buildStepF (p dir : FV) (spacing : F) (n : ℕ) (st : BuildOutF) (i : ℕ) : BuildOutF :=
  let progress : F := fDiv (some (i : ℚ)) (some ((max n 1 : ℕ) : ℚ))
  let pos := fvAdd p (fvScale (fMul progress (fMul spacing (some (((n - 1 : ℕ)) : ℚ)))) dir)
  let current := st.nextId
  let withLink : BuildOutF :=
    { st with
      nextId := st.nextId + 1
      links := st.links ++ [current]
      linkRecs := st.linkRecs ++ [⟨current, i, pos, i == 0, if i = 0 then some 5 else none⟩] }
  match st.prev with
  | none => { withLink with prev := some current }
  | some prevE =>
    { withLink with
      nextId := withLink.nextId + 1
      joints := withLink.joints ++ [withLink.nextId]
      jointRecs := withLink.jointRecs ++ [⟨withLink.nextId, prevE, current⟩]
      prev := some current }

/-- `let link_size = 20.0;` (chain.rs line 88). -/
def linkSizeF : F := some 20

/-- `let capsule_half_length = link_size * 0.5;` (line 90). -/
def capsuleHalfLengthF : F := fMul linkSizeF (some (1 / 2))

/-- `let actual_link_spacing = capsule_half_length * 2.0;` (line 91). -/
def actualLinkSpacingF : F := fMul capsuleHalfLengthF (some 2)

/-- Everything the left-click branch of `handle_chain_input` produces in
one activation: the new registry, the advanced entity counter, the
spawned link and joint records, and the impulse inserted on the first
link (chain.rs lines 164-172). -/
structure PrimaryOut where
  state : ChainState
  nextId : ℕ
  linkRecs : List LinkRecF
  jointRecs : List JointRec
  impulses : List (ℕ × FV)
  deriving DecidableEq

/-- The left-click branch of `handle_chain_input` (chain.rs lines 81-177):
`playerPos` is the player query result, `cursorPos` the result of
`get_cursor_world_position` (lines 197-208, `None` when the window,
cursor position or camera is unavailable).  When either is absent nothing
is spawned and the registry is untouched; otherwise the chain is built
from the `f32` direction/length and pushed onto the registry. -/
def handlePrimaryF (playerPos : Option FV) (cursorPos : Option FV)
    (st : ChainState) (c : ℕ) : PrimaryOut :=
  match playerPos with
  | none => ⟨st, c, [], [], []⟩
  | some p =>
    match cursorPos with
    | none => ⟨st, c, [], [], []⟩
    | some m =>
      let dir := fvNormalize (fvSub m p)
      let len := fvLength (fvSub m p)
      let n := fToUsize (fMax (fDiv len actualLinkSpacingF) (some 1))
      let B := (List.range n).foldl (buildStepF p dir actualLinkSpacingF n) (initBuildF c)
      let impulses :=
        match B.links.head? with
        | some firstLink => [(firstLink, fvScale (some 200) dir)]
        | none => []
      ⟨⟨st.chains ++ [⟨B.links, B.joints⟩]⟩, B.nextId, B.linkRecs, B.jointRecs, impulses⟩

/-- Closed form of the building loop after `m` iterations. -/
lemma buildLoop_closed (p dir : ℚ × ℚ) (spacing : ℚ) (n c : ℕ) : ∀ m : ℕ,
    (List.range m).foldl (buildStep p dir spacing n) (initBuild c) =
      ⟨if m = 0 then c else c + 2 * m - 1,
       if m = 0 then none else some (linkId c (m - 1)),
       (List.range m).map (linkId c),
       (List.range m).map (mkLinkRec c p dir spacing n),
       (List.range (m - 1)).map (jointId c),
       (List.range (m - 1)).map (mkJointRec c)⟩ := by
  intro m
  induction m with
  | zero => simp [initBuild]
  | succ m ih =>
    rw [List.range_succ, List.foldl_append, ih]
    cases m with
    | zero =>
      simp [buildStep, initBuild, linkId, mkLinkRec]
    | succ m' =>
      simp only [List.foldl_cons, List.foldl_nil, buildStep]
      have h1 : m' + 1 ≠ 0 := Nat.succ_ne_zero m'
      simp only [if_neg h1, if_neg (Nat.succ_ne_zero (m' + 1))]
      have hlk1 : c + 2 * (m' + 1) - 1 = linkId c (m' + 1) := by
        simp only [linkId]; omega
      have hjid : c + 2 * (m' + 1) - 1 + 1 = jointId c m' := by
        simp only [jointId]; omega
      refine BuildOut.mk.injEq .. ▸ ?_
      constructor
      · omega
      constructor
      · rw [hlk1]; rfl
      constructor
      · rw [hlk1, List.range_succ, List.map_append, List.map_append]
        simp
      constructor
      · have hrec : (⟨c + 2 * (m' + 1) - 1, m' + 1, linkPos p dir spacing n (m' + 1),
            m' + 1 == 0, none⟩ : LinkRec) = mkLinkRec c p dir spacing n (m' + 1) := by
          simp [mkLinkRec, linkId, LinkRec.mk.injEq]
          omega
        rw [hrec, List.range_succ, List.map_append, List.map_append]
        simp
      constructor
      · have h2 : m' + 1 + 1 - 1 = m' + 1 := rfl
        rw [hjid, h2, List.range_succ, List.map_append]
        simp
      · have h2 : m' + 1 + 1 - 1 = m' + 1 := rfl
        have hrec : (⟨c + 2 * (m' + 1) - 1 + 1, linkId c (m' + 1 - 1),
            c + 2 * (m' + 1) - 1⟩ : JointRec) = mkJointRec c m' := by
          simp [mkJointRec, jointId, linkId, JointRec.mk.injEq]
          omega
        rw [hrec, h2, List.range_succ, List.map_append]
        simp

/-- Closed form of `buildChain`. -/
lemma buildChain_closed (c : ℕ) (p dir : ℚ × ℚ) (len spacing : ℚ) :
    buildChain c p dir len spacing =
      ⟨if numLinks len spacing = 0 then c else c + 2 * numLinks len spacing - 1,
       if numLinks len spacing = 0 then none else some (linkId c (numLinks len spacing - 1)),
       (List.range (numLinks len spacing)).map (linkId c),
       (List.range (numLinks len spacing)).map (mkLinkRec c p dir spacing (numLinks len spacing)),
       (List.range (numLinks len spacing - 1)).map (jointId c),
       (List.range (numLinks len spacing - 1)).map (mkJointRec c)⟩ :=
  buildLoop_closed p dir spacing (numLinks len spacing) c (numLinks len spacing)

/-- `ratFloorNat` is the natural floor. -/
lemma ratFloorNat_eq (q : ℚ) : ratFloorNat q = Nat.floor q := by
  rcases le_or_lt 0 q with hq | hq
  · have hnum : 0 ≤ q.num := Rat.num_nonneg.2 hq
    have hcast : ((q.num.toNat : ℕ) : ℚ) = ((q.num : ℤ) : ℚ) := by
      exact_mod_cast congrArg (fun z : ℤ => (z : ℚ)) (Int.toNat_of_nonneg hnum)
    have hqeq : q = ((q.num.toNat : ℕ) : ℚ) / ((q.den : ℕ) : ℚ) := by
      rw [hcast]
      exact (Rat.num_div_den q).symm
    conv_rhs => rw [hqeq]
    rw [Nat.floor_div_nat, Nat.floor_natCast]
    rfl
  · have hnum : ¬ 0 ≤ q.num := fun hc => absurd (Rat.num_nonneg.1 hc) (not_le.2 hq)
    have h0 : q.num.toNat = 0 := Int.toNat_of_nonpos (not_le.1 hnum).le
    rw [Nat.floor_of_nonpos hq.le]
    simp [ratFloorNat, h0]

/-- `num_links` is always at least 1 (the `.max(1.0)` of line 92). -/
lemma one_le_numLinks (len spacing : ℚ) : 1 ≤ numLinks len spacing := by
  have h1 : (1 : ℚ) ≤ max (len / spacing) 1 := le_max_right _ _
  rw [numLinks, ratFloorNat_eq]
  exact Nat.le_floor (α := ℚ) (n := 1) (by exact_mod_cast h1)

/-- `num_links` is `max 1 ⌊len/spacing⌋` (so in particular for positive
length and spacing, the count the spec states). -/
lemma numLinks_eq_max (len spacing : ℚ) :
    numLinks len spacing = max 1 (Nat.floor (len / spacing)) := by
  unfold numLinks
  rw [ratFloorNat_eq]
  rcases le_or_lt 1 (len / spacing) with h | h
  · rw [max_eq_left h]
    have h1 : 1 ≤ Nat.floor (len / spacing) :=
      Nat.le_floor (α := ℚ) (n := 1) (by exact_mod_cast h)
    omega
  · rw [max_eq_right h.le]
    have h0 : Nat.floor (len / spacing) = 0 := Nat.floor_eq_zero.2 h
    simp [h0]

/-- The loop emits one link per index. -/
lemma links_length (c : ℕ) (p dir : ℚ × ℚ) (len s : ℚ) :
    (buildChain c p dir len s).links.length = numLinks len s := by
  rw [buildChain_closed]; simp

/-- The loop emits one joint per index from the second on. -/
lemma joints_length (c : ℕ) (p dir : ℚ × ℚ) (len s : ℚ) :
    (buildChain c p dir len s).joints.length = numLinks len s - 1 := by
  rw [buildChain_closed]; simp

/-- C1.  For every anchor/target pair with distance `len > 0` and every
spacing `s > 0`, the chain-building loop of `handle_chain_input` produces
exactly `max 1 ⌊len / s⌋` links and one joint fewer than links. -/
theorem chain_link_and_joint_count (c : ℕ) (p dir : ℚ × ℚ) (len s : ℚ)
    (hl : 0 < len) (hs : 0 < s) :
    (buildChain c p dir len s).links.length = max 1 (Nat.floor (len / s)) ∧
    (buildChain c p dir len s).joints.length =
      (buildChain c p dir len s).links.length - 1 := by
  refine ⟨?_, ?_⟩
  · rw [links_length, numLinks_eq_max]
  · rw [joints_length, links_length]

/-- Witness for C1 at anchor `(0,0)`, direction `(1,0)`, distance `100`,
spacing `20`. -/
theorem chain_link_and_joint_count_witness :
    (0 : ℚ) < 100 ∧ (0 : ℚ) < 20 ∧
    ((buildChain 0 (0, 0) (1, 0) 100 20).links.length =
        max 1 (Nat.floor ((100 : ℚ) / 20)) ∧
      (buildChain 0 (0, 0) (1, 0) 100 20).joints.length =
        (buildChain 0 (0, 0) (1, 0) 100 20).links.length - 1) :=
  ⟨by norm_num, by norm_num,
    chain_link_and_joint_count 0 (0, 0) (1, 0) 100 20 (by norm_num) (by norm_num)⟩

/-- Link entity ids are pairwise distinct. -/
lemma linkId_inj (c : ℕ) : ∀ i j, linkId c i = linkId c j → i = j := by
  intro i j h
  simp only [linkId] at h
  omega

/-- A disjunction is counted at most as often as its disjuncts together. -/
lemma countP_or_le {α : Type} (p q : α → Bool) (l : List α) :
    l.countP (fun a => p a || q a) ≤ l.countP p + l.countP q := by
  induction l with
  | nil => simp
  | cons a l ih =>
    simp only [List.countP_cons]
    cases hp : p a <;> cases hq : q a <;> simp [hp, hq] <;> omega

/-- On a duplicate-free list, a predicate satisfied by at most one value
is counted at most once. -/
lemma countP_le_one_of_uniq {α : Type} (p : α → Bool) (l : List α) (hl : l.Nodup)
    (h : ∀ a ∈ l, ∀ b ∈ l, p a = true → p b = true → a = b) : l.countP p ≤ 1 := by
  induction l with
  | nil => simp
  | cons a l ih =>
    rcases List.nodup_cons.1 hl with ⟨ha, hl'⟩
    simp only [List.countP_cons]
    cases hp : p a
    · simpa using ih hl' fun x hx y hy hxp hyp =>
        h x (List.mem_cons_of_mem _ hx) y (List.mem_cons_of_mem _ hy) hxp hyp
    · have hz : l.countP p = 0 := by
        rw [List.countP_eq_zero]
        intro b hb hpb
        have hba : b = a :=
          h b (List.mem_cons_of_mem _ hb) a (List.mem_cons_self _ _) hpb hp
        exact ha (hba ▸ hb)
      simp [hz]

/-- C5.  Joint `k` of a built chain references link handles `k` and `k+1`
in that order, a joint never references the same handle twice, and no
handle is an endpoint of more than two joints. -/
theorem joints_reference_consecutive_links (c : ℕ) (p dir : ℚ × ℚ) (len s : ℚ) :
    (∀ k j, (buildChain c p dir len s).jointRecs.get? k = some j →
        (buildChain c p dir len s).links.get? k = some j.entity1 ∧
        (buildChain c p dir len s).links.get? (k + 1) = some j.entity2 ∧
        j.entity1 ≠ j.entity2) ∧
    (∀ e : ℕ, (buildChain c p dir len s).jointRecs.countP
        (fun j => j.entity1 == e || j.entity2 == e) ≤ 2) := by
  have hn := one_le_numLinks len s
  rw [buildChain_closed]
  set n := numLinks len s with hdefn
  constructor
  · intro k j hk
    simp only at hk
    have hklt : k < n - 1 := by
      by_contra hge
      have : ((List.range (n - 1)).map (mkJointRec c)).get? k = none := by
        rw [List.get?_eq_none]
        simpa using le_of_not_lt hge
      rw [this] at hk
      exact Option.noConfusion hk
    rw [List.get?_map, List.get?_range hklt] at hk
    have hj : j = mkJointRec c k := (Option.some.inj hk).symm
    subst hj
    refine ⟨?_, ?_, ?_⟩
    · simp only
      rw [List.get?_map, List.get?_range (by omega : k < n)]
      rfl
    · simp only
      rw [List.get?_map, List.get?_range (by omega : k + 1 < n)]
      rfl
    · intro hcontra
      have := linkId_inj c k (k + 1) hcontra
      omega
  · intro e
    simp only
    rw [List.countP_map]
    have hcomp : ((fun j => j.entity1 == e || j.entity2 == e) ∘ mkJointRec c) =
        fun k => (linkId c k == e || linkId c (k + 1) == e) := rfl
    rw [hcomp]
    refine le_trans
      (countP_or_le (fun k => linkId c k == e) (fun k => linkId c (k + 1) == e) _) ?_
    have h1 : (List.range (n - 1)).countP (fun k => linkId c k == e) ≤ 1 := by
      refine countP_le_one_of_uniq _ _ (List.nodup_range _) ?_
      intro a _ b _ hpa hpb
      exact linkId_inj c a b (by
        have ha' : linkId c a = e := by simpa using hpa
        have hb' : linkId c b = e := by simpa using hpb
        rw [ha', hb'])
    have h2 : (List.range (n - 1)).countP (fun k => linkId c (k + 1) == e) ≤ 1 := by
      refine countP_le_one_of_uniq _ _ (List.nodup_range _) ?_
      intro a _ b _ hpa hpb
      have ha' : linkId c (a + 1) = e := by simpa using hpa
      have hb' : linkId c (b + 1) = e := by simpa using hpb
      have := linkId_inj c (a + 1) (b + 1) (by rw [ha', hb'])
      omega
    omega

/-- The demo chain parameters: distance 100 and spacing 20 give 5 links. -/
lemma numLinks_demo : numLinks 100 20 = 5 := by
  unfold numLinks
  have h : (100 : ℚ) / 20 = 5 := by norm_num
  rw [h, max_eq_left (by norm_num : (1 : ℚ) ≤ 5), ratFloorNat_eq]
  simp

/-- Joint records of the demo chain, evaluated. -/
lemma demo_jointRecs : (buildChain 0 (0, 0) (1, 0) 100 20).jointRecs =
    [⟨2, 0, 1⟩, ⟨4, 1, 3⟩, ⟨6, 3, 5⟩, ⟨8, 5, 7⟩] := by
  rw [buildChain_closed, numLinks_demo]
  rfl

/-- Witness for C5: the first joint of the demo chain from `(0,0)` toward
`(100,0)` references links `0` and `1`; no handle of that chain bounds
more than two joints. -/
theorem joints_reference_consecutive_links_witness :
    (buildChain 0 (0, 0) (1, 0) 100 20).jointRecs.get? 0 = some ⟨2, 0, 1⟩ ∧
    ((buildChain 0 (0, 0) (1, 0) 100 20).links.get? 0 =
        some ((⟨2, 0, 1⟩ : JointRec).entity1) ∧
      (buildChain 0 (0, 0) (1, 0) 100 20).links.get? (0 + 1) =
        some ((⟨2, 0, 1⟩ : JointRec).entity2) ∧
      (⟨2, 0, 1⟩ : JointRec).entity1 ≠ (⟨2, 0, 1⟩ : JointRec).entity2) ∧
    (buildChain 0 (0, 0) (1, 0) 100 20).jointRecs.countP
      (fun j => j.entity1 == 3 || j.entity2 == 3) ≤ 2 :=
  ⟨by rw [demo_jointRecs]; rfl,
    (joints_reference_consecutive_links 0 (0, 0) (1, 0) 100 20).1 0 ⟨2, 0, 1⟩
      (by rw [demo_jointRecs]; rfl),
    (joints_reference_consecutive_links 0 (0, 0) (1, 0) 100 20).2 3⟩

/-- C6.  The secondary action removes exactly the oldest chain (the front
of the creation-ordered registry), despawning all of its link and joint
handles; chains created in order `A, B, C` are removed in that order,
leaving the registry empty; on an empty registry it is a no-op. -/
theorem secondary_removes_oldest :
    (∀ (ch : Chain) (rest : List Chain),
      removeOldestChain ⟨ch :: rest⟩ = (⟨rest⟩, ch.links ++ ch.joints)) ∧
    (∀ A B C : Chain,
      removeOldestChain ⟨[A, B, C]⟩ = (⟨[B, C]⟩, A.links ++ A.joints) ∧
      removeOldestChain ⟨[B, C]⟩ = (⟨[C]⟩, B.links ++ B.joints) ∧
      removeOldestChain ⟨[C]⟩ = (⟨[]⟩, C.links ++ C.joints)) ∧
    removeOldestChain ⟨[]⟩ = (⟨[]⟩, []) :=
  ⟨fun _ _ => rfl, fun _ _ _ => ⟨rfl, rfl, rfl⟩, rfl⟩

/-- A frame with no lifetime rows changes nothing. -/
lemma runFrames_no_rows (ds : List ℚ) (cs : List Chain) :
    runFrames ds ⟨cs, []⟩ = ⟨cs, []⟩ := by
  induction ds with
  | nil => rfl
  | cons d ds ih =>
    simp only [runFrames, cleanupFrame, sweep]
    exact ih

/-- C8.  Teardown is idempotent: when a lifetime row's root entity no
longer matches any chain in the registry (the chain was already removed),
the expiry sweep only ticks the timer — the registry is unchanged and
nothing is despawned. -/
theorem removed_chain_cleanup_noop (d t : ℚ) (e : ℕ) (cs : List Chain)
    (h : ∀ ch ∈ cs, ch.links.head? ≠ some e) :
    cleanupFrame d ⟨cs, [(e, t)]⟩ = (⟨cs, [(e, tickElapsed t d)]⟩, []) := by
  have hfind : cs.findIdx? (fun ch => ch.links.head? == some e) = none := by
    rw [List.findIdx?_eq_none_iff]
    intro ch hch
    simpa using h ch hch
  by_cases hc : 5 ≤ t + d
  · simp [cleanupFrame, sweep, hfind, hc]
  · simp [cleanupFrame, sweep, hc]

/-- Witness for C8: an expired timer for root entity `1` while the
registry only holds a chain rooted at `2` is a no-op. -/
theorem removed_chain_cleanup_noop_witness :
    (∀ ch ∈ [(⟨[2], [3]⟩ : Chain)], ch.links.head? ≠ some 1) ∧
    cleanupFrame 7 ⟨[⟨[2], [3]⟩], [(1, 0)]⟩ =
      (⟨[⟨[2], [3]⟩], [(1, tickElapsed 0 7)]⟩, []) :=
  ⟨by decide, removed_chain_cleanup_noop 7 0 1 [⟨[2], [3]⟩] (by decide)⟩

/-- Running the sweep on a single chain whose root is `e`, starting from
elapsed time `t < 5` with nonnegative frame deltas: the chain survives
with the accumulated time exactly when the total stays below 5 seconds,
and is removed (with its lifetime row) as soon as the total reaches 5. -/
lemma runFrames_single_chain (ch : Chain) (e : ℕ) (h : ch.links.head? = some e) :
    ∀ (ds : List ℚ) (t : ℚ), t < 5 → (∀ x ∈ ds, 0 ≤ x) →
      runFrames ds ⟨[ch], [(e, t)]⟩ =
        if t + ds.sum < 5 then ⟨[ch], [(e, t + ds.sum)]⟩ else ⟨[], []⟩ := by
  intro ds
  induction ds with
  | nil =>
    intro t ht _
    simp [runFrames, ht]
  | cons d ds ih =>
    intro t ht hd
    have hd0 : 0 ≤ d := hd d (List.mem_cons_self _ _)
    have hds : ∀ x ∈ ds, 0 ≤ x := fun x hx => hd x (List.mem_cons_of_mem _ hx)
    have hsum : 0 ≤ ds.sum := List.sum_nonneg hds
    have hpred : (fun c : Chain => c.links.head? == some e) ch = true := by
      simp [h]
    by_cases hc : 5 ≤ t + d
    · have hone : runFrames (d :: ds) ⟨[ch], [(e, t)]⟩ = runFrames ds ⟨[], []⟩ := by
        simp only [runFrames, cleanupFrame, sweep, List.findIdx?_cons, hpred, if_pos hc]
        rfl
      rw [hone, runFrames_no_rows, if_neg (by push_neg; rw [List.sum_cons]; linarith)]
    · have htick : tickElapsed t d = t + d := min_eq_left (by linarith)
      have hone : runFrames (d :: ds) ⟨[ch], [(e, t)]⟩ =
          runFrames ds ⟨[ch], [(e, t + d)]⟩ := by
        simp only [runFrames, cleanupFrame, sweep, if_neg hc, htick]
      rw [hone, ih (t + d) (by linarith) hds, List.sum_cons]
      by_cases h5 : t + (d + ds.sum) < 5
      · rw [if_pos (by linarith), if_pos h5, add_assoc]
      · rw [if_neg (by intro hcon; exact h5 (by linarith)), if_neg h5]

/-- C7.  A chain created with the 5-second expiry countdown, ticked with
nonnegative frame deltas, is present in the registry exactly as long as
the accumulated time stays below 5 seconds: it is removed by the tick
whose running total reaches 5.0 and not before. -/
theorem chain_expiry_threshold (ch : Chain) (e : ℕ) (h : ch.links.head? = some e)
    (ds : List ℚ) (hd : ∀ x ∈ ds, 0 ≤ x) :
    (runFrames ds ⟨[ch], [(e, 0)]⟩).chains = if ds.sum < 5 then [ch] else [] := by
  have hrun := runFrames_single_chain ch e h ds 0 (by norm_num) hd
  rw [zero_add] at hrun
  rw [hrun]
  by_cases hs : ds.sum < 5 <;> simp [hs]

/-- Witness for C7: deltas totalling 4.99 leave the chain present. -/
theorem chain_expiry_threshold_witness :
    (runFrames [(499 : ℚ)/100] ⟨[⟨[1], []⟩], [(1, 0)]⟩).chains = [⟨[1], []⟩] := by
  have h := chain_expiry_threshold ⟨[1], []⟩ 1 rfl [(499 : ℚ)/100]
    (by intro x hx; rw [List.mem_singleton] at hx; rw [hx]; norm_num)
  rw [h]
  norm_num

/-- The first link of every built chain is entity `c` (the id counter's
first fresh id). -/
lemma buildChain_links_head (c : ℕ) (p dir : ℚ × ℚ) (len s : ℚ) :
    (buildChain c p dir len s).links.head? = some c := by
  rw [buildChain_closed]
  have h1 := one_le_numLinks len s
  obtain ⟨m, hm⟩ : ∃ m, numLinks len s = m + 1 :=
    ⟨numLinks len s - 1, by omega⟩
  simp only [hm]
  rw [List.range_succ_eq_map]
  rfl

/-- C10.  Every chain the primary action creates carries the `ChainRoot`
marker and a 5-second expiry countdown on its first link and only there;
non-root links carry no lifetime.  Consequently a registered chain whose
root's timer accumulates 5 seconds of nonnegative deltas is removed by
the expiry sweep. -/
theorem lifetime_on_root_only (c : ℕ) (p dir : ℚ × ℚ) (len s : ℚ) :
    ((buildChain c p dir len s).linkRecs.get? 0).map (fun r => (r.isRoot, r.lifetime)) =
      some (true, some 5) ∧
    (∀ r ∈ (buildChain c p dir len s).linkRecs,
      (r.isRoot = true ↔ r.linkIndex = 0) ∧
      r.lifetime = if r.linkIndex = 0 then some 5 else none) ∧
    (∀ ds : List ℚ, (∀ x ∈ ds, 0 ≤ x) → ¬ ds.sum < 5 →
      (runFrames ds
        ⟨[⟨(buildChain c p dir len s).links, (buildChain c p dir len s).joints⟩],
          [(c, 0)]⟩).chains = []) := by
  have h1 := one_le_numLinks len s
  refine ⟨?_, ?_, ?_⟩
  · rw [buildChain_closed]
    simp only
    rw [List.get?_map, List.get?_range (by omega : 0 < numLinks len s)]
    rfl
  · intro r hr
    rw [buildChain_closed] at hr
    simp only at hr
    rcases List.mem_map.1 hr with ⟨i, _, hi⟩
    subst hi
    constructor
    · simp [mkLinkRec]
    · rfl
  · intro ds hds hsum
    have hhead : (Chain.mk (buildChain c p dir len s).links
        (buildChain c p dir len s).joints).links.head? = some c :=
      buildChain_links_head c p dir len s
    have hrun := runFrames_single_chain _ c hhead ds 0 (by norm_num) hds
    rw [zero_add, if_neg hsum] at hrun
    rw [hrun]

/-- Witness for C10 on the demo chain: the root link carries the 5-second
lifetime, and a single 5-second tick removes the registered chain. -/
theorem lifetime_on_root_only_witness :
    ((buildChain 0 (0, 0) (1, 0) 100 20).linkRecs.get? 0).map
        (fun r => (r.isRoot, r.lifetime)) = some (true, some 5) ∧
    (runFrames [(5 : ℚ)]
      ⟨[⟨(buildChain 0 (0, 0) (1, 0) 100 20).links,
          (buildChain 0 (0, 0) (1, 0) 100 20).joints⟩], [(0, 0)]⟩).chains = [] :=
  ⟨(lifetime_on_root_only 0 (0, 0) (1, 0) 100 20).1,
    (lifetime_on_root_only 0 (0, 0) (1, 0) 100 20).2.2 [5]
      (by intro x hx; rw [List.mem_singleton] at hx; rw [hx]; norm_num)
      (by rw [List.sum_cons, List.sum_nil]; norm_num)⟩

/-- When at least 2 links are produced, the distance is bracketed by
`num_links` spacings (floor characterization). -/
lemma numLinks_bounds (len s : ℚ) (hs : 0 < s) (hn : 2 ≤ numLinks len s) :
    ((numLinks len s : ℕ) : ℚ) * s ≤ len ∧
      len < (((numLinks len s : ℕ) : ℚ) + 1) * s := by
  have h1 : (1 : ℚ) ≤ len / s := by
    by_contra hlt
    push_neg at hlt
    have hone : numLinks len s = 1 := by
      unfold numLinks
      rw [ratFloorNat_eq, max_eq_right hlt.le]
      simp
    omega
  have hq : numLinks len s = Nat.floor (len / s) := by
    unfold numLinks
    rw [ratFloorNat_eq, max_eq_left h1]
  have hnn : (0 : ℚ) ≤ len / s := le_trans zero_le_one h1
  constructor
  · have hfl : ((Nat.floor (len / s) : ℕ) : ℚ) ≤ len / s := Nat.floor_le hnn
    rw [hq]
    have hm := mul_le_mul_of_nonneg_right hfl hs.le
    rwa [div_mul_cancel₀ len hs.ne'] at hm
  · have hlt : len / s < ((Nat.floor (len / s) : ℕ) : ℚ) + 1 := Nat.lt_floor_add_one _
    rw [hq]
    have hm := mul_lt_mul_of_pos_right hlt hs
    rwa [div_mul_cancel₀ len hs.ne'] at hm

/-- The link records, indexed. -/
lemma linkRecs_get? (c : ℕ) (p dir : ℚ × ℚ) (len s : ℚ) (i : ℕ) :
    (buildChain c p dir len s).linkRecs.get? i =
      if i < numLinks len s then some (mkLinkRec c p dir s (numLinks len s) i)
      else none := by
  rw [buildChain_closed]
  simp only
  by_cases h : i < numLinks len s
  · rw [List.get?_map, List.get?_range h, if_pos h]
    rfl
  · rw [if_neg h, List.get?_eq_none]
    simpa using le_of_not_lt h

/-- C4 (amended).  For every chain with more than one link: link 0 sits at
the anchor; consecutive links are spaced by the constant positive step
`s·(n−1)/n` along the direction vector; and the last link's distance to
the target is strictly between one and three spacing units (the code
divides the index by `n` rather than `n−1`, leaving a gap larger than one
spacing unit). -/
theorem link_positions_monotone (c : ℕ) (p dir : ℚ × ℚ) (len s : ℚ)
    (hl : 0 < len) (hs : 0 < s) (hunit : dir.1 ^ 2 + dir.2 ^ 2 = 1)
    (hn : 2 ≤ numLinks len s) :
    ((buildChain c p dir len s).linkRecs.get? 0).map (fun r => r.pos) = some p ∧
    (∀ i r r', (buildChain c p dir len s).linkRecs.get? i = some r →
        (buildChain c p dir len s).linkRecs.get? (i + 1) = some r' →
        r'.pos = vadd r.pos
          (vsmul (s * ((numLinks len s : ℚ) - 1) / (numLinks len s : ℚ)) dir) ∧
        0 < s * ((numLinks len s : ℚ) - 1) / (numLinks len s : ℚ)) ∧
    (∀ r, (buildChain c p dir len s).linkRecs.get? (numLinks len s - 1) = some r →
      ∃ g : ℚ, s < g ∧ g < 3 * s ∧
        ((p.1 + len * dir.1) - r.pos.1) ^ 2 +
          ((p.2 + len * dir.2) - r.pos.2) ^ 2 = g ^ 2) := by
  have hn1 : 1 ≤ numLinks len s := one_le_numLinks len s
  set n := numLinks len s with hdefn
  have hN2 : (2 : ℚ) ≤ (n : ℚ) := by exact_mod_cast hn
  have hNpos : (0 : ℚ) < (n : ℚ) := by linarith
  have hNne : (n : ℚ) ≠ 0 := ne_of_gt hNpos
  have hmax : max n 1 = n := max_eq_left hn1
  have hcast : ((n - 1 : ℕ) : ℚ) = (n : ℚ) - 1 := by
    push_cast [Nat.cast_sub hn1]
    ring
  obtain ⟨hlow, hhigh⟩ := numLinks_bounds len s hs hn
  refine ⟨?_, ?_, ?_⟩
  · rw [linkRecs_get?, if_pos (by omega : 0 < n)]
    simp [mkLinkRec, linkPos, vadd, vsmul]
  · intro i r r' h1 h2
    rw [linkRecs_get?] at h1 h2
    have hi : i < n := by
      by_contra hcon
      rw [if_neg hcon] at h1
      exact Option.noConfusion h1
    have hi1 : i + 1 < n := by
      by_contra hcon
      rw [if_neg hcon] at h2
      exact Option.noConfusion h2
    rw [if_pos hi] at h1
    rw [if_pos hi1] at h2
    have hr := (Option.some.inj h1).symm
    have hr' := (Option.some.inj h2).symm
    subst hr hr'
    constructor
    · simp only [mkLinkRec, linkPos, vadd, vsmul, hmax, hcast]
      refine Prod.ext ?_ ?_ <;> push_cast <;> field_simp <;> ring
    · exact div_pos (mul_pos hs (by linarith)) hNpos
  · intro r hr
    rw [linkRecs_get?, if_pos (by omega : n - 1 < n)] at hr
    have hrr := (Option.some.inj hr).symm
    subst hrr
    refine ⟨len - s * ((n : ℚ) - 1) ^ 2 / (n : ℚ), ?_, ?_, ?_⟩
    · have key : s * (n : ℚ) < (len - s * ((n : ℚ) - 1) ^ 2 / (n : ℚ)) * (n : ℚ) := by
        rw [sub_mul, div_mul_cancel₀ _ hNne]
        nlinarith [mul_le_mul_of_nonneg_right hlow hNpos.le,
          mul_pos hs (by linarith : (0 : ℚ) < (n : ℚ) - 1)]
      exact (mul_lt_mul_right hNpos).1 key
    · have key : (len - s * ((n : ℚ) - 1) ^ 2 / (n : ℚ)) * (n : ℚ) < 3 * s * (n : ℚ) := by
        rw [sub_mul, div_mul_cancel₀ _ hNne]
        nlinarith [mul_lt_mul_of_pos_right hhigh hNpos, hs]
      exact (mul_lt_mul_right hNpos).1 key
    · simp only [mkLinkRec, linkPos, vadd, vsmul, hmax, hcast]
      have hexp : ((n : ℚ) - 1) / (n : ℚ) * (s * ((n : ℚ) - 1)) =
          s * ((n : ℚ) - 1) ^ 2 / (n : ℚ) := by
        field_simp
        ring
      rw [hexp]
      linear_combination ((len - s * ((n : ℚ) - 1) ^ 2 / (n : ℚ)) ^ 2) * hunit

/-- Link records of the demo chain, evaluated: positions are 16 apart. -/
lemma demo_linkRecs : (buildChain 0 (0, 0) (1, 0) 100 20).linkRecs =
    [⟨0, 0, (0, 0), true, some 5⟩, ⟨1, 1, (16, 0), false, none⟩,
      ⟨3, 2, (32, 0), false, none⟩, ⟨5, 3, (48, 0), false, none⟩,
      ⟨7, 4, (64, 0), false, none⟩] := by
  rw [buildChain_closed, numLinks_demo]
  simp only
  rw [show List.range 5 = [0, 1, 2, 3, 4] from rfl]
  norm_num [mkLinkRec, linkPos, linkId, vadd, vsmul, LinkRec.mk.injEq, Prod.ext_iff]

/-- Counterexample to C4 as stated: for anchor `(0,0)`, target `(100,0)`,
spacing `20`, the last link sits at `x = 64`, strictly more than one
spacing unit (20) away from the target. -/
theorem last_link_gap_counterexample :
    (buildChain 0 (0, 0) (1, 0) 100 20).linkRecs.get? (numLinks 100 20 - 1) =
      some ⟨7, 4, (64, 0), false, none⟩ ∧
    (((0 : ℚ) + 100 * 1) - 64) ^ 2 + (((0 : ℚ) + 100 * 0) - 0) ^ 2 > 20 ^ 2 := by
  constructor
  · rw [numLinks_demo, demo_linkRecs]
    rfl
  · norm_num

/-- Witness for C4 at the demo parameters. -/
theorem link_positions_monotone_witness :
    (0 : ℚ) < 100 ∧ (0 : ℚ) < 20 ∧ ((1 : ℚ) ^ 2 + (0 : ℚ) ^ 2 = 1) ∧
    2 ≤ numLinks 100 20 ∧
    ((buildChain 0 (0, 0) (1, 0) 100 20).linkRecs.get? 0).map (fun r => r.pos) =
      some ((0 : ℚ), (0 : ℚ)) :=
  ⟨by norm_num, by norm_num, by norm_num, by rw [numLinks_demo]; norm_num,
    (link_positions_monotone 0 (0, 0) (1, 0) 100 20 (by norm_num) (by norm_num)
      (by norm_num) (by rw [numLinks_demo]; norm_num)).1⟩

/-- C9.  When the cursor's world position is unavailable, a primary
action spawns nothing and has no side effects: the registry, the entity
counter and the spawn lists are untouched, whatever the player state. -/
theorem no_cursor_no_spawn (playerPos : Option FV) (st : ChainState) (c : ℕ) :
    handlePrimaryF playerPos none st c = ⟨st, c, [], [], []⟩ := by
  cases playerPos <;> rfl

/-- `sqrt 0 = 0` in the `f32` model. -/
lemma fSqrt_zero : fSqrt (some 0) = some 0 := by
  rw [fSqrt]
  norm_num

/-- `sqrt 10000 = 100` in the `f32` model. -/
lemma fSqrt_ten_thousand : fSqrt (some 10000) = some 100 := by
  have h3 : Nat.sqrt 10000 = 100 := by
    rw [show (10000 : ℕ) = 100 * 100 by norm_num, Nat.sqrt_eq]
  rw [fSqrt, show ((10000 : ℚ)).num.toNat = 10000 from rfl,
    show ((10000 : ℚ)).den = 1 from rfl, h3, Nat.sqrt_one]
  norm_num

/-- The demo's effective spacing is 20 world units. -/
lemma actualLinkSpacingF_eval : actualLinkSpacingF = some 20 := by
  norm_num [actualLinkSpacingF, capsuleHalfLengthF, linkSizeF, fMul]

/-- C3 (evaluated at the failing input).  With the cursor exactly on the
player (`anchor == target`), `normalize` divides the zero vector by its
zero length: the direction is NaN in both components, and the single
spawned link's translation is NaN — the code does not panic, but the
link is not positioned at the anchor and no geometry error is raised. -/
lemma degenerate_primary_eval :
    handlePrimaryF (some (some 0, some 0)) (some (some 0, some 0)) ⟨[]⟩ 0 =
      ⟨⟨[⟨[0], []⟩]⟩, 1, [⟨0, 0, (none, none), true, some 5⟩], [], [(0, (none, none))]⟩ := by
  have hsub : fvSub (some 0, some 0) (some 0, some 0) = (some 0, some 0) := by
    norm_num [fvSub, fSub]
  have hlensq : fvLengthSq (some 0, some 0) = some 0 := by
    norm_num [fvLengthSq, fMul, fAdd]
  have hlen : fvLength (some 0, some 0) = some 0 := by
    rw [fvLength, hlensq, fSqrt_zero]
  have hnorm : fvNormalize (some 0, some 0) = (none, none) := by
    rw [fvNormalize, hlen]
    norm_num [fDiv]
  have hn : fToUsize (fMax (fDiv (some 0) (some 20)) (some 1)) = 1 := by
    norm_num [fDiv, fMax, fToUsize, ratFloorNat_eq,
      max_eq_right (by norm_num : (0:ℚ) ≤ 1)]
  simp only [handlePrimaryF, actualLinkSpacingF_eval, hsub, hnorm, hlen, hn]
  rw [show List.range 1 = [0] from rfl]
  norm_num [buildStepF, initBuildF, fvAdd, fAdd, fvScale, fMul, fDiv,
    List.foldl_cons, List.foldl_nil]

theorem degenerate_anchor_nan :
    fvNormalize (fvSub (some 0, some 0) (some 0, some 0)) = (none, none) ∧
    (handlePrimaryF (some (some 0, some 0)) (some (some 0, some 0)) ⟨[]⟩ 0).state.chains =
      [⟨[0], []⟩] ∧
    (handlePrimaryF (some (some 0, some 0)) (some (some 0, some 0)) ⟨[]⟩ 0).jointRecs = [] ∧
    ((handlePrimaryF (some (some 0, some 0)) (some (some 0, some 0)) ⟨[]⟩ 0).linkRecs.map
        fun r => r.pos) = [(none, none)] := by
  have hsub : fvSub (some 0, some 0) (some 0, some 0) = (some 0, some 0) := by
    norm_num [fvSub, fSub]
  have hlensq : fvLengthSq (some 0, some 0) = some 0 := by
    norm_num [fvLengthSq, fMul, fAdd]
  have hlen : fvLength (some 0, some 0) = some 0 := by
    rw [fvLength, hlensq, fSqrt_zero]
  have hnorm : fvNormalize (some 0, some 0) = (none, none) := by
    rw [fvNormalize, hlen]
    norm_num [fDiv]
  exact ⟨by rw [hsub]; exact hnorm, by rw [degenerate_primary_eval],
    by rw [degenerate_primary_eval], by rw [degenerate_primary_eval]; rfl⟩

/-- The primary action from player `(0,0)` toward cursor `(100,0)`,
evaluated: 5 links at `x = 0, 16, 32, 48, 64`, 4 joints, one chain pushed,
the impulse on the first link. -/
lemma demo_primary_eval :
    handlePrimaryF (some (some 0, some 0)) (some (some 100, some 0)) ⟨[]⟩ 0 =
      ⟨⟨[⟨[0, 1, 3, 5, 7], [2, 4, 6, 8]⟩]⟩, 9,
        [⟨0, 0, (some 0, some 0), true, some 5⟩,
          ⟨1, 1, (some 16, some 0), false, none⟩,
          ⟨3, 2, (some 32, some 0), false, none⟩,
          ⟨5, 3, (some 48, some 0), false, none⟩,
          ⟨7, 4, (some 64, some 0), false, none⟩],
        [⟨2, 0, 1⟩, ⟨4, 1, 3⟩, ⟨6, 3, 5⟩, ⟨8, 5, 7⟩],
        [(0, (some 200, some 0))]⟩ := by
  have hsub : fvSub (some 100, some 0) (some 0, some 0) = (some 100, some 0) := by
    norm_num [fvSub, fSub]
  have hlensq : fvLengthSq (some 100, some 0) = some 10000 := by
    norm_num [fvLengthSq, fMul, fAdd]
  have hlen : fvLength (some 100, some 0) = some 100 := by
    rw [fvLength, hlensq, fSqrt_ten_thousand]
  have hnorm : fvNormalize (some 100, some 0) = (some 1, some 0) := by
    rw [fvNormalize, hlen]
    norm_num [fDiv]
  have hn : fToUsize (fMax (fDiv (some 100) (some 20)) (some 1)) = 5 := by
    have hq : (100 : ℚ) / 20 = 5 := by norm_num
    norm_num [fDiv, fMax, fToUsize, ratFloorNat_eq, hq,
      max_eq_left (by norm_num : (1:ℚ) ≤ 5)]
  simp only [handlePrimaryF, actualLinkSpacingF_eval, hsub, hnorm, hlen, hn]
  rw [show List.range 5 = [0, 1, 2, 3, 4] from rfl]
  norm_num [buildStepF, initBuildF, fvAdd, fAdd, fvScale, fMul, fDiv,
    List.foldl_cons, List.foldl_nil]

/-- Counterexample to C2 as stated: for anchor `(0,0)`, target `(100,0)`,
spacing 20, the link x-positions are `0, 16, 32, 48, 64`, not
`0, 20, 40, 60, 80`. -/
theorem example_positions_counterexample :
    ((handlePrimaryF (some (some 0, some 0)) (some (some 100, some 0)) ⟨[]⟩ 0).linkRecs.map
        fun r => r.pos.1) = [some 0, some 16, some 32, some 48, some 64] ∧
    [some (0 : ℚ), some 16, some 32, some 48, some 64] ≠
      [some (0 : ℚ), some 20, some 40, some 60, some 80] := by
  rw [demo_primary_eval]
  norm_num

/-- C2 (amended).  For anchor `(0,0)` and target `(100,0)` with spacing
20, the primary action produces `link_count = 5` with link positions at
`x = 0, 16, 32, 48, 64` (consecutive links `spacing·(n−1)/n = 16` apart)
and 4 joints. -/
theorem example_chain_eval :
    (handlePrimaryF (some (some 0, some 0)) (some (some 100, some 0)) ⟨[]⟩ 0).linkRecs.length
      = 5 ∧
    (handlePrimaryF (some (some 0, some 0)) (some (some 100, some 0)) ⟨[]⟩ 0).jointRecs.length
      = 4 ∧
    ((handlePrimaryF (some (some 0, some 0)) (some (some 100, some 0)) ⟨[]⟩ 0).linkRecs.map
        fun r => r.pos) =
      [(some 0, some 0), (some 16, some 0), (some 32, some 0),
        (some 48, some 0), (some 64, some 0)] ∧
    (handlePrimaryF (some (some 0, some 0)) (some (some 100, some 0)) ⟨[]⟩ 0).state.chains =
      [⟨[0, 1, 3, 5, 7], [2, 4, 6, 8]⟩] := by
  rw [demo_primary_eval]
  norm_num

end Hooked
